import Mathlib

/-!
Verification of the `hasagi` CLI dispatcher (`src/bin/index.ts`, with the
legacy variant `src/unnamed/part_000`) against its specification.

The dispatcher is glue code around two external libraries (`@hasagi/core`
and `@hasagi/schema`) and the Node file system.  We embed the dispatcher's
own logic shallowly: external collaborators (the HTTP client, the schema
generator, `JSON.parse`, `fs.stat`) are inputs of the embedding, and the
dispatcher's observable behaviour is a list of effects plus an
`Except`-style outcome (`Except.error` models an exception escaping the
handler).
-/

namespace Hasagi

/-- JSON values, as produced by the external `JSON.parse` and consumed by
`JSON.stringify`. -/
inductive Json where
  | null : Json
  | bool : Bool → Json
  | num : Int → Json
  | str : String → Json
  | arr : List Json → Json
  | obj : List (String × Json) → Json
deriving Repr

/-- Escaping of one character inside a JSON string literal, as done by
`JSON.stringify`. -/
def jsonEscapeChar (c : Char) : String :=
  if c = '"' then "\\\""
  else if c = '\\' then "\\\\"
  else if c = '\n' then "\\n"
  else if c = '\r' then "\\r"
  else if c = '\t' then "\\t"
  else String.singleton c

/-- Escaping of a JSON string literal body. -/
def jsonEscape (s : String) : String :=
  String.join (s.data.map jsonEscapeChar)

/-- Models the external builtin `JSON.stringify(value, null, 4)`.  The
claims only compare outputs of this function with each other, so the
builtin's exact whitespace layout is not load-bearing; the rendering here
is deterministic and injective on the structure the dispatcher writes. -/
def jsonStringify : Json → String
  | .null => "null"
  | .bool b => cond b "true" "false"
  | .num n => toString n
  | .str s => "\"" ++ jsonEscape s ++ "\""
  | .arr xs => "[" ++ String.intercalate ", " (xs.attach.map (fun x => jsonStringify x.1)) ++ "]"
  | .obj fs => "\x7b" ++ String.intercalate ", "
      (fs.attach.map (fun f => "\"" ++ jsonEscape f.1.1 ++ "\": " ++ jsonStringify f.1.2)) ++ "\x7d"
decreasing_by
  · have h := List.sizeOf_lt_of_mem x.2
    simp only [Json.arr.sizeOf_spec]
    omega
  · have h := List.sizeOf_lt_of_mem f.2
    have h2 : sizeOf f.1.2 < sizeOf f.1 := by
      obtain ⟨⟨a, b⟩, hf⟩ := f
      simp only [Prod.mk.sizeOf_spec]
      omega
    simp only [Json.obj.sizeOf_spec]
    omega

/-- ASCII lower-casing of one character, as JS `toLowerCase` acts on the
ASCII range (the dispatcher's paths are ASCII URL paths). -/
def jsToLowerChar (c : Char) : Char :=
  if 'A' ≤ c ∧ c ≤ 'Z' then Char.ofNat (c.toNat + 32) else c

/-- ASCII upper-casing of one character, as JS `toUpperCase` acts on the
ASCII range. -/
def jsToUpperChar (c : Char) : Char :=
  if 'a' ≤ c ∧ c ≤ 'z' then Char.ofNat (c.toNat - 32) else c

/-- Models `String.prototype.toLowerCase` on ASCII strings. -/
def jsToLower (s : String) : String := String.mk (s.data.map jsToLowerChar)

/-- Models `String.prototype.toUpperCase` on ASCII strings. -/
def jsToUpper (s : String) : String := String.mk (s.data.map jsToUpperChar)

/-- Models `path.replaceAll("/", "_")`: every slash becomes an underscore
(single-character pattern, so `replaceAll` is a character map). -/
def replaceSlashes (s : String) : String :=
  String.mk (s.data.map (fun c => if c = '/' then '_' else c))

/-- Models Node's `path.join(dir, name)`.  The claims only need that the
result designates the file `name` inside `dir`; Node's path normalization
is not load-bearing. -/
def pathJoin (dir name : String) : String := dir ++ "/" ++ name

/-- The `--out` resolution shared by `request` and `listen`
(index.ts lines 55 and 95):
`options.out === undefined ? undefined : options.out !== "" ? options.out : "./"`. -/
def resolveOut : Option String → Option String
  | none => none
  | some s => if s ≠ "" then some s else some "./"

/-- The directory check shared by `request` and `listen`
(index.ts lines 56 and 96):
`out !== undefined ? await fs.stat(out).then(stat => stat.isDirectory(), () => false) : false`.
The environment's `stat` returns `some b` when `fs.stat` fulfills with a
stats object whose `isDirectory()` is `b`, and `none` when it rejects. -/
def computeIsDirectory (stat : String → Option Bool) : Option String → Bool
  | none => false
  | some p => (stat p).getD false

/-- JS truthiness of a `string | undefined` value, as tested by
`if (out)`: `undefined` and the empty string are falsy. -/
def jsTruthy : Option String → Bool
  | none => false
  | some s => s ≠ ""

/-- How the external `client.request` promise settles: fulfilled with an
axios response (status + data), or rejected with one of the two error
classes of `@hasagi/core` (`LCUError` for a non-success HTTP status,
`RequestError` for a transport failure). -/
inductive RequestOutcome where
  | success : Nat → Json → RequestOutcome
  | lcuError : Nat → String → String → Option Json → RequestOutcome
  | requestError : Option String → Option String → RequestOutcome

/-- The dispatcher's request result value (index.ts lines 59-68): a tagged
union of a success record and the two caught error shapes. -/
inductive RequestResult where
  | success : Nat → Json → RequestResult
  | lcuError : Nat → String → String → Option Json → RequestResult
  | requestError : Option String → Option String → RequestResult

/-- The settlement handlers of index.ts lines 65-68:
`.then(res => ({ statusCode: res.status, body: res.data }), err => err)`.
Both branches produce a result value; neither rethrows. -/
def computeResult : RequestOutcome → RequestResult
  | .success st d => .success st d
  | .lcuError st ec msg det => .lcuError st ec msg det
  | .requestError ec msg => .requestError ec msg

/-- The JSON value `JSON.stringify` sees when given the result
(index.ts line 71): the success record's own fields, or the error
instance's own enumerable fields. -/
def resultToJson : RequestResult → Json
  | .success st b => .obj [("statusCode", .num st), ("body", b)]
  | .lcuError st ec msg det =>
      .obj ([("statusCode", .num st), ("errorCode", .str ec), ("message", .str msg)] ++
        (match det with
         | some d => [("implementationDetails", d)]
         | none => []))
  | .requestError ec msg =>
      .obj ((match ec with | some c => [("errorCode", Json.str c)] | none => []) ++
        (match msg with | some m => [("message", Json.str m)] | none => []))

/-- Observable effects of a dispatcher run: calls into the external
client, the external schema generator, the console and the file system. -/
inductive Effect where
  | connect : Effect
  | logLine : String → Effect
  | statQuery : String → Effect
  | httpRequest : String → String → Option Json → Option Json → Effect
  | writeFile : String → String → Effect
  | appendFile : String → String → Effect
  | mkdir : String → Effect
  | fetchExtendedHelp : Effect
  | deriveSwagger : Effect
  | deriveTypeScript : Effect
  | registerListener : Option String → Option String → Option (List String) → Effect

/-- The `log` helper (index.ts lines 10-12): prefixes with `[hasagi] `. -/
def logText (t : String) : Effect := .logLine ("[hasagi] " ++ t)

/-- The pre-request log line of index.ts line 58. -/
def sendingMsg (method : String) (port : Nat) (path : String) : String :=
  "Sending '" ++ method ++ "' request to 'https://127.0.0.1:" ++ toString port ++ path ++ "'..."

/-- The result reporting chain of index.ts lines 74-85. -/
def resultLogEffects (result : RequestResult) : List Effect :=
  match result with
  | .lcuError st ec msg det =>
      [logText ("Received response with non-success status code '" ++ toString st ++ "'."),
       logText ("Error code: '" ++ ec ++ "'."),
       logText ("Error message: '" ++ msg ++ "'")] ++
      (match det with
       | some d => [logText ("Additional details: " ++ jsonStringify d)]
       | none => [])
  | .requestError ec msg =>
      [logText ((ec.getD "RequestError") ++ ": " ++ (msg.getD "An error occurred"))]
  | .success st body =>
      [logText ("Received response with status code '" ++ toString st ++ "'."),
       logText ("Response: " ++ jsonStringify body)]

/-- Options of the `request` command, after yargs parsing. -/
structure RequestOptions where
  method : String
  path : String
  body : Option String
  query : Option String
  out : Option String

/-- External collaborators of the `request` command. -/
structure RequestEnv where
  /-- `JSON.parse`; `none` models a thrown `SyntaxError`. -/
  parseJson : String → Option Json
  /-- `fs.stat(p).then(s => s.isDirectory())`; `none` models a rejection. -/
  statIsDir : String → Option Bool
  /-- How the `client.request` promise settles. -/
  outcome : RequestOutcome
  /-- `Date.now()`. -/
  now : Nat
  /-- `client.getPort()`. -/
  port : Nat

/-- An exception escaping a handler (the run's `Except.error` case). -/
inductive Thrown where
  | jsonSyntaxError : String → Thrown

/-- index.ts lines 52-53:
`typeof options.body === "string" ? JSON.parse(options.body) : undefined`;
a parse failure is a thrown exception, carried as `.error raw`. -/
def parseOptional (parseJson : String → Option Json) : Option String → Except String (Option Json)
  | none => .ok none
  | some raw =>
      match parseJson raw with
      | some v => .ok (some v)
      | none => .error raw

/-- The filename derived for a directory `--out` target
(index.ts line 71):
`method-path.substring(1).replaceAll("/", "_")-Date.now().json`
(`method` is already upper-cased at this point). -/
def requestFileName (method path : String) (now : Nat) : String :=
  method ++ "-" ++ replaceSlashes (path.drop 1) ++ "-" ++ toString now ++ ".json"

/-- Modelled from the spec (section 8): the claimed filename pattern
`METHOD-{path with every slash replaced by an underscore}-{timestamp}.json`,
with no character of the path removed.  Kept for comparison against
`requestFileName`, which the code actually computes. -/
def specRequestFileName (method path : String) (now : Nat) : String :=
  method ++ "-" ++ replaceSlashes path ++ "-" ++ toString now ++ ".json"

/-- The `request` command handler (index.ts lines 44-85), as the list of
effects it performs and its outcome (`Except.error` models an exception
escaping the handler). -/
def runRequest (opts : RequestOptions) (env : RequestEnv) :
    List Effect × Except Thrown RequestResult :=
  match parseOptional env.parseJson opts.body with
  | .error raw => ([.connect], .error (.jsonSyntaxError raw))
  | .ok body =>
    match parseOptional env.parseJson opts.query with
    | .error raw => ([.connect], .error (.jsonSyntaxError raw))
    | .ok query =>
      let method := jsToUpper opts.method
      let path := opts.path
      let out := resolveOut opts.out
      let isDirectory := computeIsDirectory env.statIsDir out
      let statFx : List Effect :=
        match out with
        | some p => [.statQuery p]
        | none => []
      let result := computeResult env.outcome
      let writeFx : List Effect :=
        match out with
        | some o =>
            if o ≠ "" then
              [.writeFile (if isDirectory then pathJoin o (requestFileName method path env.now) else o)
                 (jsonStringify (resultToJson result))]
            else []
        | none => []
      ([.connect] ++ statFx ++
       [logText (sendingMsg method env.port path), .httpRequest method path body query] ++
       writeFx ++ resultLogEffects result,
       .ok result)

/-- Options of the `listen` command, after yargs parsing. -/
structure ListenOptions where
  name : Option String
  path : Option String
  type : Option (List String)
  out : Option String

/-- External collaborators of the `listen` command. -/
structure ListenEnv where
  /-- `fs.stat(p).then(s => s.isDirectory())`; `none` models a rejection. -/
  statIsDir : String → Option Bool

/-- The per-event callback registered by `listen` (index.ts lines 102-108):
if output is configured, append one pretty JSON blob plus one newline to the
target file, or to `lcu-websocket-events.txt` inside the target directory;
then log the event. -/
def listenCallbackEffects (out : Option String) (isDirectory : Bool) (event : Json) :
    List Effect :=
  (match out with
   | some o =>
       if o ≠ "" then
         [.appendFile (if isDirectory then pathJoin o "lcu-websocket-events.txt" else o)
            (jsonStringify event ++ "\n")]
       else []
   | none => []) ++
  [logText ("Received event: " ++ jsonStringify event)]

/-- The legacy per-event callback (part_000 lines 80-86): identical append
logic; the log line goes through `console.log` without the `[hasagi]`
prefix. -/
def legacyListenCallbackEffects (out : Option String) (isDirectory : Bool) (event : Json) :
    List Effect :=
  (match out with
   | some o =>
       if o ≠ "" then
         [.appendFile (if isDirectory then pathJoin o "lcu-websocket-events.txt" else o)
            (jsonStringify event ++ "\n")]
       else []
   | none => []) ++
  [.logLine ("Received event: " ++ jsonStringify event)]

/-- The `listen` command handler up to and including the subscription
registration (index.ts lines 86-109). -/
def runListenSetup (opts : ListenOptions) (_env : ListenEnv) : List Effect :=
  let out := resolveOut opts.out
  let statFx : List Effect :=
    match out with
    | some p => [.statQuery p]
    | none => []
  [.connect] ++ statFx ++ [.registerListener opts.name opts.path opts.type]

/-- Sequential delivery of events to the registered callback.  Each
`fs.appendFile` call is atomic (spec section 5), so one delivered event
contributes its effects as one contiguous block. -/
def processEvents (out : Option String) (isDirectory : Bool) (events : List Json) :
    List Effect :=
  (events.map (listenCallbackEffects out isDirectory)).flatten

/-- The `listen` command's observable trace after `events` have been
delivered sequentially. -/
def runListenEvents (opts : ListenOptions) (env : ListenEnv) (events : List Json) :
    List Effect :=
  runListenSetup opts env ++
    processEvents (resolveOut opts.out)
      (computeIsDirectory env.statIsDir (resolveOut opts.out)) events

/-- Control state of the idle loop `while (true) { await delay(100) }`
(index.ts line 111): either still looping, or having fallen through to the
`process.exit()` at the end of the script. -/
inductive LoopState where
  | running : LoopState
  | exited : LoopState
deriving DecidableEq

/-- One iteration of the idle loop: the body only suspends for 100 ms and
returns to the guard, which is the constant `true`; no iteration leads to
`exited`. -/
def listenLoopStep : LoopState → LoopState
  | .running => .running
  | .exited => .exited

/-- The proposition that some number of loop iterations reaches the
`process.exit()` after the dispatch chain. -/
def listenLoopReachesExit : Prop :=
  ∃ n : Nat, listenLoopStep^[n] LoopState.running = LoopState.exited

/-- Legacy request path preparation (part_000 line 46):
`(options.path as string).toLowerCase()`. -/
def legacyRequestPath (p : String) : String := jsToLower p

/-- Authoritative request path preparation (index.ts line 50): the path is
used unchanged. -/
def requestPathOf (p : String) : String := p

/-- The legacy success record (part_000 lines 56-59): the raw axios status
and data, wrapped without error classification. -/
structure LegacyResult where
  statusCode : Nat
  data : Json

/-- Legacy handling of the request settlement (part_000 line 53):
`await client.request(...)` with no rejection handler, so any rejection
propagates as an exception regardless of its class. -/
def legacyHandleOutcome : RequestOutcome → Except RequestOutcome LegacyResult
  | .success st d => .ok ⟨st, d⟩
  | .lcuError st ec msg det => .error (.lcuError st ec msg det)
  | .requestError ec msg => .error (.requestError ec msg)

/-- Options of the `schema` command, after yargs parsing. -/
structure SchemaOptions where
  raw : Option String
  swagger : Option String
  typescript : Option String
  tsnamespace : Option String

/-- External collaborators of the `schema` command: the values produced by
`getExtendedHelp(true)`, `getSwagger` and `getTypeScript`. -/
structure SchemaEnv where
  consoleSchema : Json
  fullSchema : Json
  extendedSchema : Json
  /-- `getSwagger`, applied to the extended schema. -/
  swaggerOf : Json → Json
  /-- `getTypeScript(swaggerObj, extendedSchema, tsnamespace)`, as a
  function of the namespace option: types, endpoints, events sources. -/
  typeScriptOf : Option String → String × String × String

/-- The `schema` command handler (index.ts lines 112-144), as the list of
effects it performs. -/
def runSchema (opts : SchemaOptions) (env : SchemaEnv) : List Effect :=
  if opts.raw.isSome || opts.swagger.isSome || opts.typescript.isSome then
    let rawFx : List Effect :=
      match opts.raw with
      | some r =>
          let out := if r ≠ "" then r else "./"
          [.mkdir out,
           .writeFile (pathJoin out "console-schema.json") (jsonStringify env.consoleSchema),
           .writeFile (pathJoin out "full-schema.json") (jsonStringify env.fullSchema),
           .writeFile (pathJoin out "extended-schema.json") (jsonStringify env.extendedSchema)]
      | none => []
    let swaggerObj : Option Json :=
      if opts.swagger.isSome || opts.typescript.isSome then
        some (env.swaggerOf env.extendedSchema)
      else none
    let deriveFx : List Effect :=
      if opts.swagger.isSome || opts.typescript.isSome then [.deriveSwagger] else []
    let swaggerFx : List Effect :=
      match opts.swagger with
      | some s =>
          let out := if s ≠ "" then s else "./"
          [.mkdir out,
           .writeFile (pathJoin out "swagger.json") (jsonStringify (swaggerObj.getD .null))]
      | none => []
    let tsFx : List Effect :=
      match opts.typescript with
      | some t =>
          let outs := env.typeScriptOf opts.tsnamespace
          let out := if t ≠ "" then t else "./"
          [.deriveTypeScript, .mkdir out,
           .writeFile (pathJoin out "lcu-types.d.ts") outs.1,
           .writeFile (pathJoin out "lcu-endpoints.d.ts") outs.2.1,
           .writeFile (pathJoin out "lcu-events.d.ts") outs.2.2]
      | none => []
    [.fetchExtendedHelp] ++ rawFx ++ deriveFx ++ swaggerFx ++ tsFx
  else []

/-- Paths of the `writeFile` effects of a trace, in order. -/
def writtenPaths (fx : List Effect) : List String :=
  fx.filterMap fun e =>
    match e with
    | .writeFile p _ => some p
    | _ => none

/-- Path/content pairs of the `writeFile` effects of a trace, in order. -/
def writtenFiles (fx : List Effect) : List (String × String) :=
  fx.filterMap fun e =>
    match e with
    | .writeFile p c => some (p, c)
    | _ => none

/-- Path/content pairs of the `appendFile` effects of a trace, in order. -/
def appendBlobs (fx : List Effect) : List (String × String) :=
  fx.filterMap fun e =>
    match e with
    | .appendFile p c => some (p, c)
    | _ => none

/-- Number of `fs.stat` calls in a trace. -/
def countStat (fx : List Effect) : Nat :=
  (fx.filter fun e => match e with | .statQuery _ => true | _ => false).length

/-- Number of `getExtendedHelp` calls in a trace. -/
def countFetch (fx : List Effect) : Nat :=
  (fx.filter fun e => match e with | .fetchExtendedHelp => true | _ => false).length

/-- Number of `getSwagger` calls in a trace. -/
def countDeriveSwagger (fx : List Effect) : Nat :=
  (fx.filter fun e => match e with | .deriveSwagger => true | _ => false).length

/-- Number of `client.request` calls in a trace. -/
def countHttp (fx : List Effect) : Nat :=
  (fx.filter fun e => match e with | .httpRequest _ _ _ _ => true | _ => false).length

/-- Number of directory creations in a trace. -/
def countMkdir (fx : List Effect) : Nat :=
  (fx.filter fun e => match e with | .mkdir _ => true | _ => false).length

/-- A concrete environment used to instantiate the hypothesised theorems
on a closed input. -/
def sampleEnv : RequestEnv :=
  ⟨fun _ => some .null, fun _ => some true, .success 200 .null, 0, 1234⟩

/-! ## Helper lemmas -/

theorem char_toNat_le {a b : Char} (h : a ≤ b) : a.toNat ≤ b.toNat := by
  rw [Char.le_def] at h
  exact h

theorem ofNat_toNat_valid (n : Nat) (h : n < 55296) : (Char.ofNat n).toNat = n := by
  unfold Char.ofNat
  split
  · rfl
  · rename_i hn
    exact absurd (Or.inl h) hn

theorem jsToLowerChar_ne {c : Char} (h1 : 'A' ≤ c) (h2 : c ≤ 'Z') :
    jsToLowerChar c ≠ c := by
  intro heq
  unfold jsToLowerChar at heq
  rw [if_pos ⟨h1, h2⟩] at heq
  have hb : c.toNat ≤ 90 := char_toNat_le h2
  have hval : (Char.ofNat (c.toNat + 32)).toNat = c.toNat + 32 :=
    ofNat_toNat_valid _ (by omega)
  rw [heq] at hval
  omega

theorem map_self_of_mem {l : List Char} {f : Char → Char} (h : l.map f = l)
    {c : Char} (hc : c ∈ l) : f c = c := by
  induction l with
  | nil => cases hc
  | cons a t ih =>
    simp only [List.map_cons, List.cons.injEq] at h
    cases hc with
    | head => exact h.1
    | tail _ ht => exact ih h.2 ht

theorem parseOptional_ok_of_isSome (pj : String → Option Json) (o : Option String)
    (h : ∀ r, o = some r → (pj r).isSome) :
    ∃ v, parseOptional pj o = .ok v := by
  cases o with
  | none => exact ⟨none, rfl⟩
  | some r =>
    cases hpr : pj r with
    | none =>
      have hs := h r rfl
      rw [hpr] at hs
      exact absurd hs (by simp)
    | some v => exact ⟨some v, by simp [parseOptional, hpr]⟩

theorem resolveOut_ne_empty {o : Option String} {p : String}
    (h : resolveOut o = some p) : p ≠ "" := by
  cases o with
  | none => cases h
  | some s =>
    by_cases hs : s = ""
    · subst hs
      simp [resolveOut] at h
      subst h
      decide
    · simp [resolveOut, hs] at h
      subst h
      exact hs

/-! ## Claims -/

/-- C1: every `request` invocation produces a result that is exactly one of
success(status, body), protocol-error(status, code, message, details?) or
transport-error(code?, message?); protocol and transport errors are caught
by the rejection handler and turned into this result value, never rethrown
past the dispatcher (the run ends in `Except.ok`). -/
theorem request_result_taxonomy (opts : RequestOptions) (env : RequestEnv)
    (hb : ∀ r, opts.body = some r → (env.parseJson r).isSome)
    (hq : ∀ r, opts.query = some r → (env.parseJson r).isSome) :
    (runRequest opts env).2 = Except.ok (computeResult env.outcome) ∧
    ((∃ st b, computeResult env.outcome = .success st b) ∨
     (∃ st ec msg det, computeResult env.outcome = .lcuError st ec msg det) ∨
     (∃ ec msg, computeResult env.outcome = .requestError ec msg)) := by
  obtain ⟨vb, hvb⟩ := parseOptional_ok_of_isSome env.parseJson opts.body hb
  obtain ⟨vq, hvq⟩ := parseOptional_ok_of_isSome env.parseJson opts.query hq
  constructor
  · simp only [runRequest, hvb, hvq]
  · rcases ho : env.outcome with ⟨st, b⟩ | ⟨st, ec, msg, det⟩ | ⟨ec, msg⟩
    · exact Or.inl ⟨st, b, rfl⟩
    · exact Or.inr (Or.inl ⟨st, ec, msg, det, rfl⟩)
    · exact Or.inr (Or.inr ⟨ec, msg, rfl⟩)

/-- Closed instance of `request_result_taxonomy`. -/
theorem request_result_taxonomy_witness :
    (runRequest ⟨"get", "/x", none, none, none⟩ sampleEnv).2 =
      Except.ok (computeResult sampleEnv.outcome) ∧
    ((∃ st b, computeResult sampleEnv.outcome = .success st b) ∨
     (∃ st ec msg det, computeResult sampleEnv.outcome = .lcuError st ec msg det) ∨
     (∃ ec msg, computeResult sampleEnv.outcome = .requestError ec msg)) :=
  request_result_taxonomy ⟨"get", "/x", none, none, none⟩ sampleEnv
    (fun _ h => nomatch h) (fun _ h => nomatch h)

/-- A concrete listen environment used to instantiate hypothesised
theorems on a closed input. -/
def sampleListenEnv : ListenEnv := ⟨fun _ => some true⟩

theorem resultLog_all_logLine (r : RequestResult) :
    ∀ e ∈ resultLogEffects r, ∃ t, e = Effect.logLine t := by
  intro e he
  rcases r with ⟨st, b⟩ | ⟨st, ec, msg, det⟩ | ⟨ec, msg⟩
  · simp [resultLogEffects, logText] at he
    rcases he with h | h <;> exact ⟨_, h⟩
  · cases det with
    | none =>
      simp [resultLogEffects, logText] at he
      rcases he with h | h | h <;> exact ⟨_, h⟩
    | some d =>
      simp [resultLogEffects, logText] at he
      rcases he with h | h | h | h <;> exact ⟨_, h⟩
  · simp [resultLogEffects, logText] at he
    exact ⟨_, he⟩

theorem writtenPaths_resultLog (r : RequestResult) :
    writtenPaths (resultLogEffects r) = [] := by
  rcases r with ⟨st, b⟩ | ⟨st, ec, msg, det⟩ | ⟨ec, msg⟩
  · simp [resultLogEffects, writtenPaths, logText]
  · cases det <;> simp [resultLogEffects, writtenPaths, logText]
  · simp [resultLogEffects, writtenPaths, logText]

theorem writtenFiles_resultLog (r : RequestResult) :
    writtenFiles (resultLogEffects r) = [] := by
  rcases r with ⟨st, b⟩ | ⟨st, ec, msg, det⟩ | ⟨ec, msg⟩
  · simp [resultLogEffects, writtenFiles, logText]
  · cases det <;> simp [resultLogEffects, writtenFiles, logText]
  · simp [resultLogEffects, writtenFiles, logText]

theorem countStat_resultLog (r : RequestResult) :
    countStat (resultLogEffects r) = 0 := by
  rcases r with ⟨st, b⟩ | ⟨st, ec, msg, det⟩ | ⟨ec, msg⟩
  · simp [resultLogEffects, countStat, logText]
  · cases det <;> simp [resultLogEffects, countStat, logText]
  · simp [resultLogEffects, countStat, logText]

/-- C2: for `request` and `listen`, an unset `--out` means no file output
and no stat call; an empty-string `--out` resolves to "./"; any other
string is used exactly as given; directoryhood is decided by one stat call;
and when the stat fails the resolved target is used verbatim as a literal
file path. -/
theorem out_target_resolution (opts : RequestOptions) (env : RequestEnv)
    (lopts : ListenOptions) (lenv : ListenEnv) (p s : String) (ev : Json)
    (hb : ∀ r, opts.body = some r → (env.parseJson r).isSome)
    (hq : ∀ r, opts.query = some r → (env.parseJson r).isSome) :
    resolveOut none = none ∧
    resolveOut (some "") = some "./" ∧
    (s ≠ "" → resolveOut (some s) = some s) ∧
    (opts.out = none →
        writtenPaths (runRequest opts env).1 = [] ∧
        countStat (runRequest opts env).1 = 0) ∧
    ((resolveOut opts.out).isSome → countStat (runRequest opts env).1 = 1) ∧
    (lopts.out = none →
        appendBlobs (runListenEvents lopts lenv [ev]) = [] ∧
        countStat (runListenSetup lopts lenv) = 0) ∧
    ((resolveOut lopts.out).isSome → countStat (runListenSetup lopts lenv) = 1) ∧
    (env.statIsDir p = none → computeIsDirectory env.statIsDir (some p) = false) ∧
    (resolveOut opts.out = some p → env.statIsDir p = none →
        writtenPaths (runRequest opts env).1 = [p]) ∧
    (resolveOut lopts.out = some p → lenv.statIsDir p = none →
        appendBlobs (runListenEvents lopts lenv [ev]) =
          [(p, jsonStringify ev ++ "\n")]) := by
  obtain ⟨vb, hvb⟩ := parseOptional_ok_of_isSome env.parseJson opts.body hb
  obtain ⟨vq, hvq⟩ := parseOptional_ok_of_isSome env.parseJson opts.query hq
  refine ⟨rfl, by simp [resolveOut], fun hs => by simp [resolveOut, hs], ?_, ?_, ?_, ?_, ?_, ?_, ?_⟩
  · intro h
    constructor
    · simp [runRequest, hvb, hvq, h, resolveOut, writtenPaths, logText]
      intro a ha
      obtain ⟨t, rfl⟩ := resultLog_all_logLine _ a ha
      rfl
    · simp [runRequest, hvb, hvq, h, resolveOut, countStat, logText]
      intro a ha
      obtain ⟨t, rfl⟩ := resultLog_all_logLine _ a ha
      rfl
  · intro h
    obtain ⟨q, hq2⟩ := Option.isSome_iff_exists.mp h
    have hne : q ≠ "" := resolveOut_ne_empty hq2
    simp [runRequest, hvb, hvq, hq2, hne, countStat, logText]
    intro a ha
    obtain ⟨t, rfl⟩ := resultLog_all_logLine _ a ha
    rfl
  · intro h
    constructor
    · simp [runListenEvents, runListenSetup, processEvents, h, resolveOut,
        listenCallbackEffects, appendBlobs, logText]
    · simp [runListenSetup, h, resolveOut, countStat]
  · intro h
    obtain ⟨q, hq2⟩ := Option.isSome_iff_exists.mp h
    simp [runListenSetup, hq2, countStat]
  · intro h
    simp [computeIsDirectory, h]
  · intro h1 h2
    have hne : p ≠ "" := resolveOut_ne_empty h1
    simp [runRequest, hvb, hvq, h1, h2, hne, computeIsDirectory, writtenPaths,
      logText]
    intro a ha
    obtain ⟨t, rfl⟩ := resultLog_all_logLine _ a ha
    rfl
  · intro h1 h2
    have hne : p ≠ "" := resolveOut_ne_empty h1
    simp [runListenEvents, runListenSetup, processEvents, h1, h2, hne,
      computeIsDirectory, listenCallbackEffects, appendBlobs, logText]

/-- Closed instance of `out_target_resolution`. -/
theorem out_target_resolution_witness :
    resolveOut none = none ∧
    resolveOut (some "") = some "./" ∧
    ("t" ≠ "" → resolveOut (some "t") = some "t") ∧
    ((⟨"get", "/x", none, none, some "dir"⟩ : RequestOptions).out = none →
        writtenPaths (runRequest ⟨"get", "/x", none, none, some "dir"⟩ sampleEnv).1 = [] ∧
        countStat (runRequest ⟨"get", "/x", none, none, some "dir"⟩ sampleEnv).1 = 0) ∧
    ((resolveOut (⟨"get", "/x", none, none, some "dir"⟩ : RequestOptions).out).isSome →
        countStat (runRequest ⟨"get", "/x", none, none, some "dir"⟩ sampleEnv).1 = 1) ∧
    ((⟨none, none, none, some "dir"⟩ : ListenOptions).out = none →
        appendBlobs (runListenEvents ⟨none, none, none, some "dir"⟩ sampleListenEnv [.null]) = [] ∧
        countStat (runListenSetup ⟨none, none, none, some "dir"⟩ sampleListenEnv) = 0) ∧
    ((resolveOut (⟨none, none, none, some "dir"⟩ : ListenOptions).out).isSome →
        countStat (runListenSetup ⟨none, none, none, some "dir"⟩ sampleListenEnv) = 1) ∧
    (sampleEnv.statIsDir "q" = none →
        computeIsDirectory sampleEnv.statIsDir (some "q") = false) ∧
    (resolveOut (⟨"get", "/x", none, none, some "dir"⟩ : RequestOptions).out = some "q" →
        sampleEnv.statIsDir "q" = none →
        writtenPaths (runRequest ⟨"get", "/x", none, none, some "dir"⟩ sampleEnv).1 = ["q"]) ∧
    (resolveOut (⟨none, none, none, some "dir"⟩ : ListenOptions).out = some "q" →
        sampleListenEnv.statIsDir "q" = none →
        appendBlobs (runListenEvents ⟨none, none, none, some "dir"⟩ sampleListenEnv [.null]) =
          [("q", jsonStringify .null ++ "\n")]) :=
  out_target_resolution ⟨"get", "/x", none, none, some "dir"⟩ sampleEnv
    ⟨none, none, none, some "dir"⟩ sampleListenEnv "q" "t" .null
    (fun _ h => nomatch h) (fun _ h => nomatch h)

/-- C3 (counterexample): for the request path `/a/b` the filename written
for a directory `--out` starts `GET-a_b-`, not `GET-_a_b-` as the claimed
pattern (every slash replaced by an underscore) would require: the code
removes the path's first character before the replacement. -/
theorem request_filename_pattern_counterexample :
    writtenPaths (runRequest ⟨"get", "/a/b", none, none, some "dir"⟩
        ⟨fun _ => some .null, fun _ => some true, .success 200 .null, 7, 1⟩).1 =
      [pathJoin "dir" (requestFileName (jsToUpper "get") "/a/b" 7)] ∧
    requestFileName (jsToUpper "get") "/a/b" 7 = "GET-a_b-7.json" ∧
    specRequestFileName (jsToUpper "get") "/a/b" 7 = "GET-_a_b-7.json" ∧
    requestFileName (jsToUpper "get") "/a/b" 7 ≠
      specRequestFileName (jsToUpper "get") "/a/b" 7 := by
  refine ⟨?_, by decide, by decide, by decide⟩
  decide

/-- C3 (amended): for a valid `request` invocation whose `--out` target is
an existing directory, on success the dispatcher writes exactly one file
inside that directory, named
`METHOD-(path with its first character removed and each remaining slash
replaced by an underscore)-timestamp.json` (method upper-cased, current
timestamp appended), with the pretty JSON serialization of the
statusCode/body success record as content. -/
theorem request_directory_write (opts : RequestOptions) (env : RequestEnv) (o : String)
    (st : Nat) (b : Json)
    (hb : ∀ r, opts.body = some r → (env.parseJson r).isSome)
    (hq : ∀ r, opts.query = some r → (env.parseJson r).isSome)
    (hout : resolveOut opts.out = some o)
    (hdir : env.statIsDir o = some true)
    (hsuc : env.outcome = .success st b) :
    writtenFiles (runRequest opts env).1 =
      [(pathJoin o (requestFileName (jsToUpper opts.method) opts.path env.now),
        jsonStringify (resultToJson (.success st b)))] ∧
    requestFileName (jsToUpper opts.method) opts.path env.now =
      jsToUpper opts.method ++ "-" ++ replaceSlashes (opts.path.drop 1) ++ "-" ++
        toString env.now ++ ".json" := by
  obtain ⟨vb, hvb⟩ := parseOptional_ok_of_isSome env.parseJson opts.body hb
  obtain ⟨vq, hvq⟩ := parseOptional_ok_of_isSome env.parseJson opts.query hq
  have hne : o ≠ "" := resolveOut_ne_empty hout
  constructor
  · simp [runRequest, hvb, hvq, hout, hdir, hsuc, hne, computeIsDirectory,
      writtenFiles, logText, computeResult]
    intro a ha
    obtain ⟨t, rfl⟩ := resultLog_all_logLine _ a ha
    rfl
  · rfl

/-- Closed instance of `request_directory_write`. -/
theorem request_directory_write_witness :
    writtenFiles (runRequest ⟨"get", "/a/b", none, none, some "dir"⟩ sampleEnv).1 =
      [(pathJoin "dir" (requestFileName (jsToUpper "get") "/a/b" sampleEnv.now),
        jsonStringify (resultToJson (.success 200 .null)))] ∧
    requestFileName (jsToUpper "get") "/a/b" sampleEnv.now =
      jsToUpper "get" ++ "-" ++ replaceSlashes ((String.drop "/a/b" 1)) ++ "-" ++
        toString sampleEnv.now ++ ".json" :=
  request_directory_write ⟨"get", "/a/b", none, none, some "dir"⟩ sampleEnv "dir" 200 .null
    (fun _ h => nomatch h) (fun _ h => nomatch h) (by decide) rfl rfl

/-- C4: a `schema` invocation with only `--swagger` fetches the extended
schema exactly once, derives the Swagger document exactly once, writes
exactly `swagger.json` into the resolved target directory, and writes none
of the raw-schema files. -/
theorem schema_swagger_only (s : String) (tsns : Option String) (env : SchemaEnv) :
    countFetch (runSchema ⟨none, some s, none, tsns⟩ env) = 1 ∧
    countDeriveSwagger (runSchema ⟨none, some s, none, tsns⟩ env) = 1 ∧
    writtenFiles (runSchema ⟨none, some s, none, tsns⟩ env) =
      [(pathJoin (if s ≠ "" then s else "./") "swagger.json",
        jsonStringify (env.swaggerOf env.extendedSchema))] ∧
    (∀ q ∈ writtenPaths (runSchema ⟨none, some s, none, tsns⟩ env),
        q = pathJoin (if s ≠ "" then s else "./") "swagger.json") := by
  refine ⟨?_, ?_, ?_, ?_⟩ <;>
    simp [runSchema, countFetch, countDeriveSwagger, writtenFiles, writtenPaths]

/-- C5: a `schema` invocation with none of `--raw`, `--swagger`,
`--typescript` is a no-op: no effect at all, in particular no schema
fetch, no Swagger derivation, no directory creation and no write. -/
theorem schema_no_flags_noop (tsns : Option String) (env : SchemaEnv) :
    runSchema ⟨none, none, none, tsns⟩ env = [] ∧
    countFetch (runSchema ⟨none, none, none, tsns⟩ env) = 0 ∧
    countDeriveSwagger (runSchema ⟨none, none, none, tsns⟩ env) = 0 ∧
    countMkdir (runSchema ⟨none, none, none, tsns⟩ env) = 0 ∧
    writtenPaths (runSchema ⟨none, none, none, tsns⟩ env) = [] :=
  ⟨rfl, rfl, rfl, rfl, rfl⟩

theorem appendBlobs_append (a b : List Effect) :
    appendBlobs (a ++ b) = appendBlobs a ++ appendBlobs b := by
  simp [appendBlobs]

/-- C6: with output configured, every received `listen` event causes
exactly one append to the resolved target (the target file itself, or the
fixed filename inside it when the target is a directory), each append
being one pretty JSON blob followed by one newline; sequential processing
keeps the appended blobs whole and in delivery order, never interleaved. -/
theorem listen_event_appends (o : String) (ho : o ≠ "") (isDir : Bool)
    (events : List Json) :
    appendBlobs (processEvents (some o) isDir events) =
      events.map (fun e =>
        ((if isDir then pathJoin o "lcu-websocket-events.txt" else o),
         jsonStringify e ++ "\n")) ∧
    (∀ e : Json, appendBlobs (listenCallbackEffects (some o) isDir e) =
        [((if isDir then pathJoin o "lcu-websocket-events.txt" else o),
          jsonStringify e ++ "\n")]) := by
  have hcb : ∀ e : Json, appendBlobs (listenCallbackEffects (some o) isDir e) =
      [((if isDir then pathJoin o "lcu-websocket-events.txt" else o),
        jsonStringify e ++ "\n")] := by
    intro e
    simp [listenCallbackEffects, appendBlobs, ho, logText]
  refine ⟨?_, hcb⟩
  induction events with
  | nil => rfl
  | cons e t ih =>
    have hstep : processEvents (some o) isDir (e :: t) =
        listenCallbackEffects (some o) isDir e ++ processEvents (some o) isDir t := by
      simp [processEvents]
    rw [hstep, appendBlobs_append, hcb, ih]
    simp

/-- Closed instance of `listen_event_appends`. -/
theorem listen_event_appends_witness :
    appendBlobs (processEvents (some "./") true [Json.null]) =
      [Json.null].map (fun e =>
        ((if true then pathJoin "./" "lcu-websocket-events.txt" else "./"),
         jsonStringify e ++ "\n")) ∧
    (∀ e : Json, appendBlobs (listenCallbackEffects (some "./") true e) =
        [((if true then pathJoin "./" "lcu-websocket-events.txt" else "./"),
          jsonStringify e ++ "\n")]) :=
  listen_event_appends "./" (by decide) true [Json.null]

/-- C7: the `listen` idle loop `while (true) { await delay(100) }` never
returns: every number of iterations leaves it running, and no number of
iterations reaches the `process.exit()` after the dispatch chain, so only
external termination ends the process. -/
theorem listen_idle_loop_never_exits :
    (∀ n : Nat, listenLoopStep^[n] LoopState.running = LoopState.running) ∧
    ¬ listenLoopReachesExit := by
  have h : ∀ n : Nat, listenLoopStep^[n] LoopState.running = LoopState.running := by
    intro n
    induction n with
    | zero => rfl
    | succ k ih =>
      rw [Function.iterate_succ_apply', ih]
      rfl
  refine ⟨h, ?_⟩
  rintro ⟨n, hn⟩
  rw [h n] at hn
  cases hn

/-- C8: the two dispatcher variants are not behaviorally equivalent for
`request`: on any path containing an upper-case ASCII letter the legacy
variant lower-cases the path while the authoritative one passes it
unchanged; the legacy variant wraps only the raw success response and lets
every rejection propagate undiscriminated, while the authoritative variant
maps protocol and transport errors to distinct result shapes. -/
theorem dispatcher_variants_diverge (p : String)
    (hup : ∃ c ∈ p.data, 'A' ≤ c ∧ c ≤ 'Z') :
    legacyRequestPath p ≠ requestPathOf p ∧
    (∀ st d, legacyHandleOutcome (.success st d) = .ok ⟨st, d⟩) ∧
    (∀ st ec msg det, legacyHandleOutcome (.lcuError st ec msg det) =
        .error (.lcuError st ec msg det)) ∧
    (∀ ec msg, legacyHandleOutcome (.requestError ec msg) =
        .error (.requestError ec msg)) ∧
    (∀ st ec msg det ec2 msg2,
        computeResult (.lcuError st ec msg det) ≠
          computeResult (.requestError ec2 msg2)) := by
  obtain ⟨c, hc, h1, h2⟩ := hup
  refine ⟨?_, fun st d => rfl, fun st ec msg det => rfl, fun ec msg => rfl, ?_⟩
  · intro heq
    have hdata : p.data.map jsToLowerChar = p.data := by
      have hd := congrArg String.data heq
      simpa [legacyRequestPath, requestPathOf, jsToLower] using hd
    exact jsToLowerChar_ne h1 h2 (map_self_of_mem hdata hc)
  · intro st ec msg det ec2 msg2 heq
    simp [computeResult] at heq

/-- Closed instance of `dispatcher_variants_diverge`. -/
theorem dispatcher_variants_diverge_witness :
    legacyRequestPath "/A" ≠ requestPathOf "/A" ∧
    (∀ st d, legacyHandleOutcome (.success st d) = .ok ⟨st, d⟩) ∧
    (∀ st ec msg det, legacyHandleOutcome (.lcuError st ec msg det) =
        .error (.lcuError st ec msg det)) ∧
    (∀ ec msg, legacyHandleOutcome (.requestError ec msg) =
        .error (.requestError ec msg)) ∧
    (∀ st ec msg det ec2 msg2,
        computeResult (.lcuError st ec msg det) ≠
          computeResult (.requestError ec2 msg2)) :=
  dispatcher_variants_diverge "/A" (by decide)

/-- A concrete environment whose `JSON.parse` always throws, used to
instantiate the hypothesised theorems on a closed input. -/
def badParseEnv : RequestEnv :=
  ⟨fun _ => none, fun _ => some true, .success 200 .null, 0, 1⟩

/-- C9: `--body` and `--query` are parsed as JSON before the request is
issued; a parse failure escapes as an exception with only the connect
performed — no HTTP request, no stat, no file write — and on success the
parsed values (not the raw strings) are passed as request body and query
parameters. -/
theorem request_json_parse_gate (opts : RequestOptions) (env : RequestEnv) :
    (∀ r, opts.body = some r → env.parseJson r = none →
        (runRequest opts env).1 = [Effect.connect] ∧
        (runRequest opts env).2 = Except.error (.jsonSyntaxError r) ∧
        countHttp (runRequest opts env).1 = 0 ∧
        writtenPaths (runRequest opts env).1 = []) ∧
    ((opts.body = none ∨ ∃ rb vb, opts.body = some rb ∧ env.parseJson rb = some vb) →
      ∀ r, opts.query = some r → env.parseJson r = none →
        (runRequest opts env).1 = [Effect.connect] ∧
        (runRequest opts env).2 = Except.error (.jsonSyntaxError r) ∧
        countHttp (runRequest opts env).1 = 0 ∧
        writtenPaths (runRequest opts env).1 = []) ∧
    (∀ rb vb rq vq, opts.body = some rb → env.parseJson rb = some vb →
        opts.query = some rq → env.parseJson rq = some vq →
        Effect.httpRequest (jsToUpper opts.method) opts.path (some vb) (some vq) ∈
          (runRequest opts env).1) := by
  refine ⟨?_, ?_, ?_⟩
  · intro r hr hn
    refine ⟨?_, ?_, ?_, ?_⟩ <;>
      simp [runRequest, parseOptional, hr, hn, countHttp, writtenPaths]
  · intro hbody r hr hn
    rcases hbody with hb0 | ⟨rb, vb, hrb, hvb⟩
    · refine ⟨?_, ?_, ?_, ?_⟩ <;>
        simp [runRequest, parseOptional, hb0, hr, hn, countHttp, writtenPaths]
    · refine ⟨?_, ?_, ?_, ?_⟩ <;>
        simp [runRequest, parseOptional, hrb, hvb, hr, hn, countHttp, writtenPaths]
  · intro rb vb rq vq hrb hvb hrq hvq
    simp [runRequest, parseOptional, hrb, hvb, hrq, hvq]

/-- Closed instance of `request_json_parse_gate`. -/
theorem request_json_parse_gate_witness :
    (runRequest ⟨"get", "/x", some "nope", none, some "dir"⟩ badParseEnv).1 =
      [Effect.connect] ∧
    (runRequest ⟨"get", "/x", some "nope", none, some "dir"⟩ badParseEnv).2 =
      Except.error (.jsonSyntaxError "nope") ∧
    countHttp (runRequest ⟨"get", "/x", some "nope", none, some "dir"⟩ badParseEnv).1 = 0 ∧
    writtenPaths (runRequest ⟨"get", "/x", some "nope", none, some "dir"⟩ badParseEnv).1 = [] :=
  (request_json_parse_gate ⟨"get", "/x", some "nope", none, some "dir"⟩ badParseEnv).1
    "nope" rfl rfl

/-- C10: when the resolved `listen` output target is an existing
directory, every event is appended to the file named exactly
`lcu-websocket-events.txt` inside it, in both dispatcher variants, and the
filename does not vary with the name/path filter or the types option. -/
theorem listen_fixed_event_filename (o : String) (ho : o ≠ "") (ev : Json) :
    appendBlobs (listenCallbackEffects (some o) true ev) =
      [(pathJoin o "lcu-websocket-events.txt", jsonStringify ev ++ "\n")] ∧
    appendBlobs (legacyListenCallbackEffects (some o) true ev) =
      [(pathJoin o "lcu-websocket-events.txt", jsonStringify ev ++ "\n")] ∧
    (∀ (nm pth : Option String) (types : Option (List String)) (env : ListenEnv),
        env.statIsDir o = some true →
        appendBlobs (runListenEvents ⟨nm, pth, types, some o⟩ env [ev]) =
          [(pathJoin o "lcu-websocket-events.txt", jsonStringify ev ++ "\n")]) := by
  refine ⟨?_, ?_, ?_⟩
  · simp [listenCallbackEffects, appendBlobs, ho, logText]
  · simp [legacyListenCallbackEffects, appendBlobs, ho, logText]
  · intro nm pth types env hdir
    simp [runListenEvents, runListenSetup, processEvents, resolveOut, ho, hdir,
      computeIsDirectory, listenCallbackEffects, appendBlobs, logText]

/-- Closed instance of `listen_fixed_event_filename`. -/
theorem listen_fixed_event_filename_witness :
    appendBlobs (listenCallbackEffects (some "./") true Json.null) =
      [(pathJoin "./" "lcu-websocket-events.txt", jsonStringify Json.null ++ "\n")] ∧
    appendBlobs (legacyListenCallbackEffects (some "./") true Json.null) =
      [(pathJoin "./" "lcu-websocket-events.txt", jsonStringify Json.null ++ "\n")] ∧
    (∀ (nm pth : Option String) (types : Option (List String)) (env : ListenEnv),
        env.statIsDir "./" = some true →
        appendBlobs (runListenEvents ⟨nm, pth, types, some "./"⟩ env [Json.null]) =
          [(pathJoin "./" "lcu-websocket-events.txt", jsonStringify Json.null ++ "\n")]) :=
  listen_fixed_event_filename "./" (by decide) Json.null

end Hasagi
